import Mathlib

/-!
A verification model of simdpp/core/insert.h (libsimdpp).

A SIMD register is modelled by the natural number encoding its bit
pattern; the w-bit lane i occupies bits w*i .. w*i+w-1 (little-endian
lane packing, as on the x86 and little-endian ARM targets of the
library).  Every backend variant of the source file (scalar fallback,
SSE4.1, SSE2, NEON, ALTIVEC) is translated to a function on such
registers, and the per-backend synthesis strategies are proved
equivalent to direct lane replacement.
-/

namespace Simdpp

/-- Value of the bit field of weight k and size W of register r:
r / k modulo W.  Helper underlying getLane, with k = 2 ^ (bit position)
and W = 2 ^ (field width). -/
def getL (k W r : Nat) : Nat := r / k % W

/-- Register r with the bit field of weight k and size W replaced by x
(reduced modulo W): the bits below the field, then the new field, then
the bits above the field.  Helper underlying setLane. -/
def setL (k W r x : Nat) : Nat := r % k + x % W * k + r / k / W * W * k

/-- The w-bit lane i of register r under little-endian lane packing. -/
def getLane (w i r : Nat) : Nat := getL (2 ^ (w * i)) (2 ^ w) r

/-- Register r with its w-bit lane i replaced by x (truncated to w bits)
and every other bit unchanged: the direct lane-replacement semantics.
The scalar fallback backend of insert.h (SIMDPP_USE_NULL, a.el(id) = x)
is exactly this operation on the packed register. -/
def setLane (w i r x : Nat) : Nat := setL (2 ^ (w * i)) (2 ^ w) r x

theorem setL_mod_k (k W r x : Nat) : setL k W r x % k = r % k := by
  unfold setL
  rw [Nat.add_mul_mod_self_right, Nat.add_mul_mod_self_right]
  exact Nat.mod_mod_of_dvd r dvd_rfl

theorem setL_div_k (k W r x : Nat) (hk : 0 < k) :
    setL k W r x / k = x % W + r / k / W * W := by
  unfold setL
  rw [Nat.add_mul_div_right _ _ hk, Nat.add_mul_div_right _ _ hk,
    Nat.div_eq_of_lt (Nat.mod_lt r hk)]
  omega

theorem setL_div_div (k W r x : Nat) (hk : 0 < k) (hW : 0 < W) :
    setL k W r x / k / W = r / k / W := by
  rw [setL_div_k k W r x hk, Nat.add_mul_div_right _ _ hW,
    Nat.div_eq_of_lt (Nat.mod_lt x hW)]
  omega

theorem setL_div_kW (k W r x : Nat) (hk : 0 < k) (hW : 0 < W) :
    setL k W r x / (k * W) = r / k / W := by
  rw [← Nat.div_div_eq_div_mul]
  exact setL_div_div k W r x hk hW

theorem setL_mod_kW (k W r x : Nat) (hk : 0 < k) (hW : 0 < W) :
    setL k W r x % (k * W) = r % k + x % W * k := by
  have h2 : r % k < k := Nat.mod_lt r hk
  have h3 : x % W < W := Nat.mod_lt x hW
  have h4 : (x % W + 1) * k ≤ W * k :=
    Nat.mul_le_mul_right k (Nat.succ_le_of_lt h3)
  rw [Nat.succ_mul] at h4
  have h1 : r % k + x % W * k < k * W := by
    have h5 : k * W = W * k := Nat.mul_comm k W
    omega
  have e : setL k W r x = r % k + x % W * k + r / k / W * (k * W) := by
    unfold setL; ring
  rw [e, Nat.add_mul_mod_self_right, Nat.mod_eq_of_lt h1]

theorem setL_setL (k W r x y : Nat) (hk : 0 < k) (hW : 0 < W) :
    setL k W (setL k W r x) y = setL k W r y := by
  have h1 := setL_mod_k k W r x
  have h2 := setL_div_div k W r x hk hW
  calc setL k W (setL k W r x) y
      = setL k W r x % k + y % W * k + setL k W r x / k / W * W * k := rfl
    _ = r % k + y % W * k + r / k / W * W * k := by rw [h1, h2]
    _ = setL k W r y := rfl

theorem setL_getL_self (k W r : Nat) : setL k W r (getL k W r) = r := by
  unfold setL getL
  rw [Nat.mod_mod_of_dvd _ dvd_rfl]
  have h1 : r / k % W + r / k / W * W = r / k := by
    rw [Nat.mul_comm (r / k / W) W]
    exact Nat.mod_add_div (r / k) W
  calc r % k + r / k % W * k + r / k / W * W * k
      = r % k + (r / k % W + r / k / W * W) * k := by ring
    _ = r % k + r / k * k := by rw [h1]
    _ = r := by rw [Nat.mul_comm (r / k) k]; exact Nat.mod_add_div r k

theorem setL_mask (k W r x y : Nat) (h : x % W = y % W) :
    setL k W r x = setL k W r y := by
  unfold setL; rw [h]

theorem getLane_lt (w i r : Nat) : getLane w i r < 2 ^ w :=
  Nat.mod_lt _ (Nat.two_pow_pos w)

theorem getLane_eq_mod_div (w k n : Nat) :
    getLane w k n = n % (2 ^ (w * k) * 2 ^ w) / 2 ^ (w * k) := by
  unfold getLane getL
  rw [Nat.mod_mul_right_div_self]

theorem getLane_setLane_same (w i r x : Nat) :
    getLane w i (setLane w i r x) = x % 2 ^ w := by
  unfold getLane setLane getL
  rw [setL_div_k _ _ _ _ (Nat.two_pow_pos _), Nat.add_mul_mod_self_right,
    Nat.mod_mod_of_dvd x dvd_rfl]

theorem setLane_div_high (w i r x : Nat) :
    setLane w i r x / 2 ^ (w * (i + 1)) = r / 2 ^ (w * (i + 1)) := by
  have e : (2 : Nat) ^ (w * (i + 1)) = 2 ^ (w * i) * 2 ^ w := by
    rw [show w * (i + 1) = w * i + w from by ring, pow_add]
  unfold setLane
  rw [e]
  rw [show setL (2 ^ (w * i)) (2 ^ w) r x / (2 ^ (w * i) * 2 ^ w)
        = setL (2 ^ (w * i)) (2 ^ w) r x / 2 ^ (w * i) / 2 ^ w
      from (Nat.div_div_eq_div_mul _ _ _).symm]
  rw [show r / (2 ^ (w * i) * 2 ^ w) = r / 2 ^ (w * i) / 2 ^ w
      from (Nat.div_div_eq_div_mul _ _ _).symm]
  exact setL_div_div _ _ _ _ (Nat.two_pow_pos _) (Nat.two_pow_pos _)

theorem getLane_setLane_lt (w i j r x : Nat) (h : j < i) :
    getLane w j (setLane w i r x) = getLane w j r := by
  have hd : (2 : Nat) ^ (w * j) * 2 ^ w ∣ 2 ^ (w * i) := by
    rw [← pow_add, show w * j + w = w * (j + 1) from by ring]
    exact pow_dvd_pow 2 (Nat.mul_le_mul_left w h)
  have h2 : setLane w i r x % 2 ^ (w * i) = r % 2 ^ (w * i) :=
    setL_mod_k _ _ _ _
  rw [getLane_eq_mod_div, getLane_eq_mod_div]
  congr 1
  calc setLane w i r x % (2 ^ (w * j) * 2 ^ w)
      = setLane w i r x % 2 ^ (w * i) % (2 ^ (w * j) * 2 ^ w) :=
        (Nat.mod_mod_of_dvd _ hd).symm
    _ = r % 2 ^ (w * i) % (2 ^ (w * j) * 2 ^ w) := by rw [h2]
    _ = r % (2 ^ (w * j) * 2 ^ w) := Nat.mod_mod_of_dvd _ hd

theorem getLane_setLane_gt (w i j r x : Nat) (h : i < j) :
    getLane w j (setLane w i r x) = getLane w j r := by
  have e : w * j = w * (i + 1) + w * (j - i - 1) := by
    have h1 : (i + 1) + (j - i - 1) = j := by omega
    calc w * j = w * ((i + 1) + (j - i - 1)) := by rw [h1]
      _ = w * (i + 1) + w * (j - i - 1) := by ring
  have key : ∀ n : Nat,
      getLane w j n = n / 2 ^ (w * (i + 1)) / 2 ^ (w * (j - i - 1)) % 2 ^ w := by
    intro n
    unfold getLane getL
    rw [Nat.div_div_eq_div_mul, ← pow_add, ← e]
  rw [key, key, setLane_div_high]

theorem getLane_setLane_ne (w i j r x : Nat) (h : j ≠ i) :
    getLane w j (setLane w i r x) = getLane w j r := by
  rcases Nat.lt_or_ge j i with h1 | h1
  · exact getLane_setLane_lt w i j r x h1
  · exact getLane_setLane_gt w i j r x (Nat.lt_of_le_of_ne h1 (Ne.symm h))

theorem setLane_setLane_same (w i r x y : Nat) :
    setLane w i (setLane w i r x) y = setLane w i r y :=
  setL_setL _ _ r x y (Nat.two_pow_pos _) (Nat.two_pow_pos _)

theorem setLane_getLane_self (w i r : Nat) :
    setLane w i r (getLane w i r) = r :=
  setL_getL_self _ _ r

theorem setLane_mask (w i r x y : Nat) (h : x % 2 ^ w = y % 2 ^ w) :
    setLane w i r x = setLane w i r y :=
  setL_mask _ _ r x y h

theorem setL_pair (k W r x y : Nat) (hk : 0 < k) (hW : 0 < W) :
    setL (k * W) W (setL k W r x) y = setL k (W * W) r (x % W + y % W * W) := by
  have h1 : x % W < W := Nat.mod_lt x hW
  have h2 : y % W < W := Nat.mod_lt y hW
  have h4 : (y % W + 1) * W ≤ W * W :=
    Nat.mul_le_mul_right W (Nat.succ_le_of_lt h2)
  rw [Nat.succ_mul] at h4
  have hz : x % W + y % W * W < W * W := by omega
  have e1 : setL (k * W) W (setL k W r x) y
      = setL k W r x % (k * W) + y % W * (k * W)
        + setL k W r x / (k * W) / W * W * (k * W) := rfl
  rw [e1, setL_mod_kW k W r x hk hW, setL_div_kW k W r x hk hW]
  have e2 : setL k (W * W) r (x % W + y % W * W)
      = r % k + (x % W + y % W * W) % (W * W) * k
        + r / k / (W * W) * (W * W) * k := rfl
  rw [e2, Nat.mod_eq_of_lt hz, ← Nat.div_div_eq_div_mul]
  ring

theorem setLane_pair (w i r x y : Nat) :
    setLane w (2 * i + 1) (setLane w (2 * i) r x) y
      = setLane (2 * w) i r (x % 2 ^ w + y % 2 ^ w * 2 ^ w) := by
  have e1 : (2 : Nat) ^ (w * (2 * i + 1)) = 2 ^ (w * (2 * i)) * 2 ^ w := by
    rw [show w * (2 * i + 1) = w * (2 * i) + w from by ring, pow_add]
  have e2 : (2 : Nat) ^ (2 * w) = 2 ^ w * 2 ^ w := by
    rw [show 2 * w = w + w from by ring, pow_add]
  have e3 : (2 : Nat) ^ (2 * w * i) = 2 ^ (w * (2 * i)) := by
    congr 1; ring
  unfold setLane
  rw [e1, e2, e3]
  exact setL_pair _ _ r x y (Nat.two_pow_pos _) (Nat.two_pow_pos _)

theorem setLane_double (w i r z : Nat) :
    setLane (2 * w) i r z
      = setLane w (2 * i + 1) (setLane w (2 * i) r z) (z / 2 ^ w) := by
  rw [setLane_pair]
  apply setLane_mask
  have e2 : (2 : Nat) ^ (2 * w) = 2 ^ w * 2 ^ w := by
    rw [← pow_add]; congr 1; ring
  have h1 : z % 2 ^ w < 2 ^ w := Nat.mod_lt z (Nat.two_pow_pos w)
  have h2 : z / 2 ^ w % 2 ^ w < 2 ^ w := Nat.mod_lt _ (Nat.two_pow_pos w)
  have h4 : (z / 2 ^ w % 2 ^ w + 1) * 2 ^ w ≤ 2 ^ w * 2 ^ w :=
    Nat.mul_le_mul_right _ (Nat.succ_le_of_lt h2)
  rw [Nat.succ_mul] at h4
  have hz : z % 2 ^ w + z / 2 ^ w % 2 ^ w * 2 ^ w < 2 ^ w * 2 ^ w := by omega
  rw [e2, Nat.mod_eq_of_lt hz, Nat.mod_mul, Nat.mul_comm (2 ^ w) (z / 2 ^ w % 2 ^ w)]

theorem getLane_double_lo (w i r : Nat) :
    getLane (2 * w) i r % 2 ^ w = getLane w (2 * i) r := by
  unfold getLane getL
  rw [Nat.mod_mod_of_dvd _ (pow_dvd_pow 2 (by omega : w ≤ 2 * w)),
    show (2 : Nat) ^ (2 * w * i) = 2 ^ (w * (2 * i)) from by rw [show 2 * w * i = w * (2 * i) from by ring]]

theorem getLane_double_hi (w i r : Nat) :
    getLane (2 * w) i r / 2 ^ w = getLane w (2 * i + 1) r := by
  unfold getLane getL
  have e2 : (2 : Nat) ^ (2 * w) = 2 ^ w * 2 ^ w := by
    rw [← pow_add]; congr 1; ring
  rw [e2, Nat.mod_mul_right_div_self, Nat.div_div_eq_div_mul, ← pow_add,
    show 2 * w * i + w = w * (2 * i + 1) from by ring]

theorem and_ff00 (L : Nat) : L &&& 0xff00 = L / 2 ^ 8 % 2 ^ 8 * 2 ^ 8 := by
  apply Nat.eq_of_testBit_eq
  intro j
  rw [Nat.testBit_and,
    show (0xff00 : Nat) = 2 ^ 8 * (2 ^ 8 - 1) from by norm_num,
    Nat.testBit_mul_pow_two, Nat.testBit_two_pow_sub_one,
    Nat.mul_comm (L / 2 ^ 8 % 2 ^ 8) (2 ^ 8), Nat.testBit_mul_pow_two,
    Nat.testBit_mod_two_pow,
    show L / 2 ^ 8 = L >>> 8 from (Nat.shiftRight_eq_div_pow L 8).symm,
    Nat.testBit_shiftRight]
  by_cases h : 8 ≤ j
  · rw [show 8 + (j - 8) = j from by omega]
    simp [h, Bool.and_comm, Bool.and_left_comm]
  · simp [h]

theorem and_ff (L : Nat) : L &&& 0xff = L % 2 ^ 8 := by
  rw [show (0xff : Nat) = 2 ^ 8 - 1 from by norm_num,
    Nat.and_pow_two_sub_one_eq_mod]

theorem and_ffff (L : Nat) : L &&& 0xffff = L % 2 ^ 16 := by
  rw [show (0xffff : Nat) = 2 ^ 16 - 1 from by norm_num,
    Nat.and_pow_two_sub_one_eq_mod]

theorem merge_even (L x : Nat) (hx : x < 2 ^ 8) :
    (L &&& 0xff00) ||| x = L / 2 ^ 8 % 2 ^ 8 * 2 ^ 8 + x := by
  rw [and_ff00, Nat.mul_comm (L / 2 ^ 8 % 2 ^ 8) (2 ^ 8),
    ← Nat.mul_add_lt_is_or hx, Nat.mul_comm]

theorem merge_odd (L x : Nat) :
    (L &&& 0xff) ||| x <<< 8 = x * 2 ^ 8 + L % 2 ^ 8 := by
  rw [and_ff, Nat.shiftLeft_eq, Nat.or_comm, Nat.mul_comm x (2 ^ 8),
    ← Nat.mul_add_lt_is_or (Nat.mod_lt L (Nat.two_pow_pos 8)), Nat.mul_comm]

theorem setLane_lt_pow (w i L r x : Nat) (hr : r < 2 ^ (w * L)) (hi : i < L) :
    setLane w i r x < 2 ^ (w * L) := by
  have e : (2 : Nat) ^ (w * (i + 1)) * 2 ^ (w * (L - i - 1)) = 2 ^ (w * L) := by
    rw [← pow_add]
    congr 1
    have h1 : (i + 1) + (L - i - 1) = L := by omega
    calc w * (i + 1) + w * (L - i - 1) = w * ((i + 1) + (L - i - 1)) := by ring
      _ = w * L := by rw [h1]
  have h2 : r / 2 ^ (w * (i + 1)) < 2 ^ (w * (L - i - 1)) :=
    Nat.div_lt_of_lt_mul (by rw [e]; exact hr)
  have h3 : setLane w i r x % 2 ^ (w * (i + 1)) < 2 ^ (w * (i + 1)) :=
    Nat.mod_lt _ (Nat.two_pow_pos _)
  have h4 := Nat.mod_add_div (setLane w i r x) (2 ^ (w * (i + 1)))
  have h5 : 2 ^ (w * (i + 1)) * (setLane w i r x / 2 ^ (w * (i + 1)))
      + 2 ^ (w * (i + 1)) ≤ 2 ^ (w * L) := by
    rw [setLane_div_high]
    have h6 : 2 ^ (w * (i + 1)) * (r / 2 ^ (w * (i + 1)) + 1)
        ≤ 2 ^ (w * (i + 1)) * 2 ^ (w * (L - i - 1)) :=
      Nat.mul_le_mul_left _ (Nat.succ_le_of_lt h2)
    rw [Nat.mul_add, Nat.mul_one] at h6
    rw [← e]
    exact h6
  omega

/-- The backend selected at build time by the mutually exclusive
SIMDPP_USE_* capability flags consulted by insert.h: scalar fallback
(NULL), SSE4.1, SSE2, NEON, ALTIVEC.  SSE4.1 builds also define the SSE2
flag; the preprocessor chain of each function resolves that priority, and
the translations below bake the same resolution into each match. -/
inductive Arch
  | null
  | sse4_1
  | sse2
  | neon
  | altivec

/-- Model of the SSE2 intrinsic _mm_extract_epi16: zero-extended read of
the 16-bit lane i. -/
def mm_extract_epi16 (a i : Nat) : Nat := getLane 16 i a

/-- Model of the SSE2 intrinsic _mm_insert_epi16: replace the 16-bit
lane i by the low 16 bits of x. -/
def mm_insert_epi16 (a x i : Nat) : Nat := setLane 16 i a x

/-- Model of the SSE4.1 intrinsic _mm_insert_epi8. -/
def mm_insert_epi8 (a x i : Nat) : Nat := setLane 8 i a x

/-- Model of the SSE4.1 intrinsic _mm_insert_epi32. -/
def mm_insert_epi32 (a x i : Nat) : Nat := setLane 32 i a x

/-- Model of the SSE4.1 intrinsic _mm_insert_epi64. -/
def mm_insert_epi64 (a x i : Nat) : Nat := setLane 64 i a x

/-- Model of the SSE2 intrinsic _mm_cvtsi32_si128: zero-extend a 32-bit
value into lane 0 of a 128-bit register. -/
def mm_cvtsi32_si128 (x : Nat) : Nat := x % 2 ^ 32

/-- Model of the SSE2 intrinsic _mm_cvtsi64_si128: zero-extend a 64-bit
value into lane 0 of a 128-bit register. -/
def mm_cvtsi64_si128 (x : Nat) : Nat := x % 2 ^ 64

/-- Model of the NEON intrinsic vsetq_lane_u8 (and likewise the other
vsetq_lane variants below): set one lane of a vector. -/
def vsetq_lane_u8 (x a i : Nat) : Nat := setLane 8 i a x

/-- Model of the NEON intrinsic vsetq_lane_u16. -/
def vsetq_lane_u16 (x a i : Nat) : Nat := setLane 16 i a x

/-- Model of the NEON intrinsic vsetq_lane_u32. -/
def vsetq_lane_u32 (x a i : Nat) : Nat := setLane 32 i a x

/-- Model of the NEON intrinsic vsetq_lane_u64. -/
def vsetq_lane_u64 (x a i : Nat) : Nat := setLane 64 i a x

/-- Model of the NEON intrinsic vsetq_lane_f32: set one 32-bit lane of a
float vector; floats are carried as their 32-bit patterns. -/
def vsetq_lane_f32 (x a i : Nat) : Nat := setLane 32 i a x

/-- Modelled from the spec: the detail::mem_block memory round-trip used
by the ALTIVEC backend (mem_block is outside the provided source): copy
the register to a lane-indexed local buffer, overwrite element id, reload
the register.  On the packed-register representation this is exactly the
lane write. -/
def memBlockInsert (w i a x : Nat) : Nat := setLane w i a x

/-- Modelled from the spec: the two-way 64-bit lane-select primitive
shuffle1 of the vector type model (shuffle1.h is outside the provided
source): the result holds lane s0 of a in lane 0 and lane s1 of b in
lane 1. -/
def shuffle1 (s0 s1 a b : Nat) : Nat :=
  getLane 64 s0 a + getLane 64 s1 b * 2 ^ 64

/-- Modelled from the spec: the 32-bit lane-interleave primitive
zip4_lo of the vector type model (outside the provided source):
zip4_lo(a, b) = [ a0, b0, a1, b1 ]. -/
def zip4_lo (a b : Nat) : Nat :=
  getLane 32 0 a + getLane 32 0 b * 2 ^ 32
    + getLane 32 1 a * 2 ^ 64 + getLane 32 1 b * 2 ^ 96

/-- The Bit-Reinterpretation Bridge: viewing a register under another
same-size scalar type keeps the bit pattern, so on the packed-register
representation it is the identity. -/
def bit_cast (a : Nat) : Nat := a

/-- insert on uint8x16 (insert.h lines 45-71), all backend branches; the
scalar x is truncated to its uint8_t parameter type on entry. -/
def insert_u8 (arch : Arch) (id a x : Nat) : Nat :=
  let x := x % 2 ^ 8
  match arch with
  | .null => setLane 8 id a x
  | .sse4_1 => mm_insert_epi8 a x id
  | .sse2 =>
      let r := mm_extract_epi16 a (id / 2)
      let r := if id % 2 == 1 then (r &&& 0x00ff) ||| (x <<< 8)
               else (r &&& 0xff00) ||| x
      mm_insert_epi16 a r (id / 2)
  | .neon => vsetq_lane_u8 x a id
  | .altivec => memBlockInsert 8 id a x

/-- insert on uint16x8 (insert.h lines 85-101); SSE4.1 builds take the
SSE2 branch (_mm_insert_epi16) of the preprocessor chain. -/
def insert_u16 (arch : Arch) (id a x : Nat) : Nat :=
  let x := x % 2 ^ 16
  match arch with
  | .null => setLane 16 id a x
  | .sse4_1 => mm_insert_epi16 a x id
  | .sse2 => mm_insert_epi16 a x id
  | .neon => vsetq_lane_u16 x a id
  | .altivec => memBlockInsert 16 id a x

/-- insert on uint32x4 (insert.h lines 117-140): the SSE2 branch splits x
into 16-bit halves and recursively inserts them at lanes id*2 and id*2+1
of the vector viewed as uint16x8. -/
def insert_u32 (arch : Arch) (id a x : Nat) : Nat :=
  let x := x % 2 ^ 32
  match arch with
  | .null => setLane 32 id a x
  | .sse4_1 => mm_insert_epi32 a x id
  | .sse2 =>
      let lo := x &&& 0xffff
      let hi := x >>> 16
      let a1 := bit_cast a
      let a1 := insert_u16 Arch.sse2 (id * 2) a1 lo
      let a1 := insert_u16 Arch.sse2 (id * 2 + 1) a1 hi
      bit_cast a1
  | .neon => vsetq_lane_u32 x a id
  | .altivec => memBlockInsert 32 id a x

/-- insert on uint64x2 (insert.h lines 157-200).  sse32 models
SIMDPP_SSE_32_BITS: on 32-bit SSE4.1 the value is inserted as two 32-bit
halves; on 32-bit SSE2 lane 0 of a scratch vector is materialized through
two _mm_cvtsi32_si128 and a zip, then merged by a shuffle1; on 64-bit
SSE2 the scratch vector comes from _mm_cvtsi64_si128. -/
def insert_u64 (arch : Arch) (sse32 : Bool) (id a x : Nat) : Nat :=
  let x := x % 2 ^ 64
  match arch with
  | .null => setLane 64 id a x
  | .sse4_1 =>
      if sse32 then
        let a0 := bit_cast a
        let a0 := insert_u32 Arch.sse4_1 (id * 2) a0 (x % 2 ^ 32)
        let a0 := insert_u32 Arch.sse4_1 (id * 2 + 1) a0 ((x >>> 32) % 2 ^ 32)
        bit_cast a0
      else mm_insert_epi64 a x id
  | .sse2 =>
      if sse32 then
        let va := mm_cvtsi32_si128 (x % 2 ^ 32)
        let vb := mm_cvtsi32_si128 ((x >>> 32) % 2 ^ 32)
        let vx := zip4_lo va vb
        if id == 0 then shuffle1 0 1 vx a else shuffle1 0 0 a vx
      else
        let vx := mm_cvtsi64_si128 x
        if id == 0 then shuffle1 0 1 vx a else shuffle1 0 0 a vx
  | .neon => vsetq_lane_u64 x a id
  | .altivec => memBlockInsert 64 id a x

/-- insert on float32x4 (insert.h lines 216-224): with the NEON
single-precision unit (SIMDPP_USE_NEON_FLT_SP, modelled by fltsp) the
native lane-set instruction is used; otherwise the float vector is
bit-reinterpreted as int32x4, the integer insert runs on the bit pattern
of x, and the result is reinterpreted back.  Floats are carried as their
32-bit patterns. -/
def insert_f32 (arch : Arch) (fltsp : Bool) (id a x : Nat) : Nat :=
  if fltsp then vsetq_lane_f32 x a id
  else bit_cast (insert_u32 arch id (bit_cast a) (bit_cast x))

/-- insert on float64x2 (insert.h lines 239-243): always integer insert
on the bit-reinterpreted representation.  Doubles are carried as their
64-bit patterns. -/
def insert_f64 (arch : Arch) (sse32 : Bool) (id a x : Nat) : Nat :=
  bit_cast (insert_u64 arch sse32 id (bit_cast a) (bit_cast x))

theorem setLane_mod_self (w i a x : Nat) :
    setLane w i a (x % 2 ^ w) = setLane w i a x :=
  setLane_mask _ _ _ _ _ (Nat.mod_mod_of_dvd x dvd_rfl)

theorem setLane_double_keep_hi (w q r x : Nat) (hx : x < 2 ^ w) :
    setLane (2 * w) q r (getLane w (2 * q + 1) r * 2 ^ w + x)
      = setLane w (2 * q) r x := by
  rw [setLane_double]
  have h1 : (getLane w (2 * q + 1) r * 2 ^ w + x) % 2 ^ w = x % 2 ^ w := by
    rw [Nat.add_comm (getLane w (2 * q + 1) r * 2 ^ w) x,
      Nat.add_mul_mod_self_right]
  have h2 : (getLane w (2 * q + 1) r * 2 ^ w + x) / 2 ^ w
      = getLane w (2 * q + 1) r := by
    rw [Nat.mul_comm (getLane w (2 * q + 1) r) (2 ^ w),
      Nat.mul_add_div (Nat.two_pow_pos w), Nat.div_eq_of_lt hx]
    omega
  rw [setLane_mask _ _ _ _ _ h1, h2,
    show getLane w (2 * q + 1) r
        = getLane w (2 * q + 1) (setLane w (2 * q) r x)
      from (getLane_setLane_ne w (2 * q) (2 * q + 1) r x (by omega)).symm,
    setLane_getLane_self]

theorem setLane_double_keep_lo (w q r x : Nat) :
    setLane (2 * w) q r (x * 2 ^ w + getLane w (2 * q) r)
      = setLane w (2 * q + 1) r x := by
  rw [setLane_double]
  have h1 : (x * 2 ^ w + getLane w (2 * q) r) % 2 ^ w
      = getLane w (2 * q) r % 2 ^ w := by
    rw [Nat.add_comm (x * 2 ^ w) (getLane w (2 * q) r),
      Nat.add_mul_mod_self_right]
  have h2 : (x * 2 ^ w + getLane w (2 * q) r) / 2 ^ w = x := by
    rw [Nat.mul_comm x (2 ^ w), Nat.mul_add_div (Nat.two_pow_pos w),
      Nat.div_eq_of_lt (getLane_lt w (2 * q) r)]
    omega
  rw [setLane_mask _ _ _ _ _ h1, h2, setLane_getLane_self]

theorem insert_u8_sse2_eq (id a x : Nat) :
    insert_u8 Arch.sse2 id a x = setLane 8 id a x := by
  have hxm : x % 2 ^ 8 < 2 ^ 8 := Nat.mod_lt x (Nat.two_pow_pos 8)
  by_cases hodd : id % 2 = 1
  · have e : insert_u8 Arch.sse2 id a x
        = setLane 16 (id / 2) a
            ((getLane 16 (id / 2) a &&& 0xff) ||| (x % 2 ^ 8) <<< 8) := by
      simp [insert_u8, mm_extract_epi16, mm_insert_epi16, hodd]
    rw [e, merge_odd,
      show getLane 16 (id / 2) a % 2 ^ 8 = getLane 8 (2 * (id / 2)) a
        from getLane_double_lo 8 (id / 2) a]
    calc setLane 16 (id / 2) a (x % 2 ^ 8 * 2 ^ 8 + getLane 8 (2 * (id / 2)) a)
        = setLane 8 (2 * (id / 2) + 1) a (x % 2 ^ 8) :=
          setLane_double_keep_lo 8 (id / 2) a (x % 2 ^ 8)
      _ = setLane 8 id a (x % 2 ^ 8) := by
          rw [show 2 * (id / 2) + 1 = id from by omega]
      _ = setLane 8 id a x := setLane_mod_self 8 id a x
  · have e : insert_u8 Arch.sse2 id a x
        = setLane 16 (id / 2) a
            ((getLane 16 (id / 2) a &&& 0xff00) ||| x % 2 ^ 8) := by
      simp [insert_u8, mm_extract_epi16, mm_insert_epi16, hodd]
    have hdiv : getLane 16 (id / 2) a / 2 ^ 8 % 2 ^ 8
        = getLane 8 (2 * (id / 2) + 1) a := by
      rw [Nat.mod_eq_of_lt
          (Nat.div_lt_of_lt_mul
            (by rw [show (2 : Nat) ^ 8 * 2 ^ 8 = 2 ^ 16 from by norm_num]
                exact getLane_lt 16 (id / 2) a))]
      exact getLane_double_hi 8 (id / 2) a
    rw [e, merge_even _ _ hxm, hdiv]
    calc setLane 16 (id / 2) a
            (getLane 8 (2 * (id / 2) + 1) a * 2 ^ 8 + x % 2 ^ 8)
        = setLane 8 (2 * (id / 2)) a (x % 2 ^ 8) :=
          setLane_double_keep_hi 8 (id / 2) a (x % 2 ^ 8) hxm
      _ = setLane 8 id a (x % 2 ^ 8) := by
          rw [show 2 * (id / 2) = id from by omega]
      _ = setLane 8 id a x := setLane_mod_self 8 id a x

theorem insert_u8_eq (arch : Arch) (id a x : Nat) :
    insert_u8 arch id a x = setLane 8 id a x := by
  cases arch
  case sse2 => exact insert_u8_sse2_eq id a x
  all_goals
    simp only [insert_u8, mm_insert_epi8, vsetq_lane_u8, memBlockInsert]
  all_goals exact setLane_mod_self 8 id a x

theorem insert_u16_eq (arch : Arch) (id a x : Nat) :
    insert_u16 arch id a x = setLane 16 id a x := by
  cases arch <;>
    simp only [insert_u16, mm_insert_epi16, vsetq_lane_u16, memBlockInsert] <;>
    exact setLane_mod_self 16 id a x

theorem insert_u32_sse2_eq (id a x : Nat) :
    insert_u32 Arch.sse2 id a x = setLane 32 id a x := by
  have e : insert_u32 Arch.sse2 id a x
      = insert_u16 Arch.sse2 (id * 2 + 1)
          (insert_u16 Arch.sse2 (id * 2) a (x % 2 ^ 32 &&& 0xffff))
          ((x % 2 ^ 32) >>> 16) := by
    simp only [insert_u32, bit_cast]
  rw [e, insert_u16_eq, insert_u16_eq, and_ffff, Nat.shiftRight_eq_div_pow,
    show id * 2 = 2 * id from by ring,
    setLane_pair 16 id a (x % 2 ^ 32 % 2 ^ 16) (x % 2 ^ 32 / 2 ^ 16)]
  have h1 : x % 2 ^ 32 / 2 ^ 16 < 2 ^ 16 :=
    Nat.div_lt_of_lt_mul
      (by rw [show (2 : Nat) ^ 16 * 2 ^ 16 = 2 ^ 32 from by norm_num]
          exact Nat.mod_lt x (Nat.two_pow_pos 32))
  have h2 : x % 2 ^ 32 % 2 ^ 16 % 2 ^ 16 + x % 2 ^ 32 / 2 ^ 16 % 2 ^ 16 * 2 ^ 16
      = x % 2 ^ 32 := by
    rw [Nat.mod_mod_of_dvd _ dvd_rfl, Nat.mod_eq_of_lt h1,
      Nat.mul_comm (x % 2 ^ 32 / 2 ^ 16) (2 ^ 16)]
    exact Nat.mod_add_div (x % 2 ^ 32) (2 ^ 16)
  rw [h2]
  exact setLane_mod_self 32 id a x

theorem insert_u32_eq (arch : Arch) (id a x : Nat) :
    insert_u32 arch id a x = setLane 32 id a x := by
  cases arch
  case sse2 => exact insert_u32_sse2_eq id a x
  all_goals
    simp only [insert_u32, mm_insert_epi32, vsetq_lane_u32, memBlockInsert]
  all_goals exact setLane_mod_self 32 id a x

theorem getLane_zero (w r : Nat) : getLane w 0 r = r % 2 ^ w := by
  unfold getLane getL
  rw [Nat.mul_zero, pow_zero, Nat.div_one]

theorem setLane_zero (w r x : Nat) :
    setLane w 0 r x = x % 2 ^ w + r / 2 ^ w * 2 ^ w := by
  unfold setLane setL
  rw [Nat.mul_zero, pow_zero, Nat.mod_one, Nat.div_one, Nat.mul_one,
    Nat.mul_one, Nat.zero_add]

theorem shuffle1_insert_lane0 (vx a : Nat) (hvx : vx < 2 ^ 64)
    (ha : a < 2 ^ 128) : shuffle1 0 1 vx a = setLane 64 0 a vx := by
  unfold shuffle1
  rw [getLane_zero, setLane_zero, Nat.mod_eq_of_lt hvx]
  have h1 : getLane 64 1 a = a / 2 ^ 64 := by
    unfold getLane getL
    rw [Nat.mul_one]
    exact Nat.mod_eq_of_lt
      (Nat.div_lt_of_lt_mul
        (by rw [show (2 : Nat) ^ 64 * 2 ^ 64 = 2 ^ 128 from by norm_num]
            exact ha))
  rw [h1]

theorem shuffle1_insert_lane1 (vx a : Nat) (hvx : vx < 2 ^ 64)
    (ha : a < 2 ^ 128) : shuffle1 0 0 a vx = setLane 64 1 a vx := by
  unfold shuffle1 setLane setL
  rw [getLane_zero, getLane_zero, Nat.mod_eq_of_lt hvx, Nat.mul_one]
  have h1 : a / 2 ^ 64 / 2 ^ 64 = 0 := by
    rw [Nat.div_div_eq_div_mul,
      show (2 : Nat) ^ 64 * 2 ^ 64 = 2 ^ 128 from by norm_num]
    exact Nat.div_eq_of_lt ha
  rw [h1, Nat.zero_mul, Nat.zero_mul, Nat.add_zero]

theorem zip_cvt_eq (x : Nat) (hx : x < 2 ^ 64) :
    zip4_lo (mm_cvtsi32_si128 (x % 2 ^ 32))
      (mm_cvtsi32_si128 ((x >>> 32) % 2 ^ 32)) = x := by
  have hdivlt : x / 2 ^ 32 < 2 ^ 32 :=
    Nat.div_lt_of_lt_mul
      (by rw [show (2 : Nat) ^ 32 * 2 ^ 32 = 2 ^ 64 from by norm_num]
          exact hx)
  have hva : x % 2 ^ 32 % 2 ^ 32 = x % 2 ^ 32 := Nat.mod_mod_of_dvd _ dvd_rfl
  have hvb : x >>> 32 % 2 ^ 32 % 2 ^ 32 = x / 2 ^ 32 := by
    rw [Nat.shiftRight_eq_div_pow, Nat.mod_mod_of_dvd _ dvd_rfl,
      Nat.mod_eq_of_lt hdivlt]
  have hlane1 : ∀ n : Nat, n < 2 ^ 32 → getLane 32 1 n = 0 := by
    intro n hn
    unfold getLane getL
    rw [Nat.mul_one, Nat.div_eq_of_lt hn, Nat.zero_mod]
  unfold zip4_lo mm_cvtsi32_si128
  rw [hva, hvb, getLane_zero, getLane_zero, hva, Nat.mod_eq_of_lt hdivlt,
    hlane1 _ (Nat.mod_lt _ (Nat.two_pow_pos 32)), hlane1 _ hdivlt,
    Nat.zero_mul, Nat.zero_mul, Nat.add_zero,
    Nat.mul_comm (x / 2 ^ 32) (2 ^ 32)]
  exact Nat.mod_add_div x (2 ^ 32)

theorem insert_u64_sse41_32_eq (id a x : Nat) :
    insert_u64 Arch.sse4_1 true id a x = setLane 64 id a x := by
  have hx64 : x % 2 ^ 64 < 2 ^ 64 := Nat.mod_lt x (Nat.two_pow_pos 64)
  show insert_u32 Arch.sse4_1 (id * 2 + 1)
      (insert_u32 Arch.sse4_1 (id * 2) a (x % 2 ^ 64 % 2 ^ 32))
      ((x % 2 ^ 64) >>> 32 % 2 ^ 32) = setLane 64 id a x
  rw [insert_u32_eq, insert_u32_eq, show id * 2 = 2 * id from by ring,
    setLane_pair 32 id a (x % 2 ^ 64 % 2 ^ 32) ((x % 2 ^ 64) >>> 32 % 2 ^ 32)]
  have hd : x % 2 ^ 64 / 2 ^ 32 < 2 ^ 32 :=
    Nat.div_lt_of_lt_mul
      (by rw [show (2 : Nat) ^ 32 * 2 ^ 32 = 2 ^ 64 from by norm_num]
          exact hx64)
  have harg : x % 2 ^ 64 % 2 ^ 32 % 2 ^ 32
      + (x % 2 ^ 64) >>> 32 % 2 ^ 32 % 2 ^ 32 * 2 ^ 32 = x % 2 ^ 64 := by
    rw [Nat.mod_mod_of_dvd _ dvd_rfl, Nat.shiftRight_eq_div_pow,
      Nat.mod_mod_of_dvd _ dvd_rfl, Nat.mod_eq_of_lt hd,
      Nat.mul_comm (x % 2 ^ 64 / 2 ^ 32) (2 ^ 32)]
    exact Nat.mod_add_div (x % 2 ^ 64) (2 ^ 32)
  rw [harg]
  exact setLane_mod_self 64 id a x

theorem insert_u64_sse2_eq (sse32 : Bool) (id a x : Nat) (hid : id < 2)
    (ha : a < 2 ^ 128) :
    insert_u64 Arch.sse2 sse32 id a x = setLane 64 id a x := by
  have hx64 : x % 2 ^ 64 < 2 ^ 64 := Nat.mod_lt x (Nat.two_pow_pos 64)
  cases sse32
  case true =>
    show (if id == 0
        then shuffle1 0 1
          (zip4_lo (mm_cvtsi32_si128 (x % 2 ^ 64 % 2 ^ 32))
            (mm_cvtsi32_si128 ((x % 2 ^ 64) >>> 32 % 2 ^ 32))) a
        else shuffle1 0 0 a
          (zip4_lo (mm_cvtsi32_si128 (x % 2 ^ 64 % 2 ^ 32))
            (mm_cvtsi32_si128 ((x % 2 ^ 64) >>> 32 % 2 ^ 32))))
      = setLane 64 id a x
    rw [zip_cvt_eq (x % 2 ^ 64) hx64]
    interval_cases id
    · show shuffle1 0 1 (x % 2 ^ 64) a = setLane 64 0 a x
      rw [shuffle1_insert_lane0 _ _ hx64 ha]
      exact setLane_mod_self 64 0 a x
    · show shuffle1 0 0 a (x % 2 ^ 64) = setLane 64 1 a x
      rw [shuffle1_insert_lane1 _ _ hx64 ha]
      exact setLane_mod_self 64 1 a x
  case false =>
    show (if id == 0
        then shuffle1 0 1 (mm_cvtsi64_si128 (x % 2 ^ 64)) a
        else shuffle1 0 0 a (mm_cvtsi64_si128 (x % 2 ^ 64)))
      = setLane 64 id a x
    have hvx : mm_cvtsi64_si128 (x % 2 ^ 64) = x % 2 ^ 64 := by
      unfold mm_cvtsi64_si128
      exact Nat.mod_mod_of_dvd _ dvd_rfl
    rw [hvx]
    interval_cases id
    · show shuffle1 0 1 (x % 2 ^ 64) a = setLane 64 0 a x
      rw [shuffle1_insert_lane0 _ _ hx64 ha]
      exact setLane_mod_self 64 0 a x
    · show shuffle1 0 0 a (x % 2 ^ 64) = setLane 64 1 a x
      rw [shuffle1_insert_lane1 _ _ hx64 ha]
      exact setLane_mod_self 64 1 a x

theorem insert_u64_eq (arch : Arch) (sse32 : Bool) (id a x : Nat)
    (hid : id < 2) (ha : a < 2 ^ 128) :
    insert_u64 arch sse32 id a x = setLane 64 id a x := by
  cases arch
  case null =>
    show setLane 64 id a (x % 2 ^ 64) = setLane 64 id a x
    exact setLane_mod_self 64 id a x
  case neon =>
    show setLane 64 id a (x % 2 ^ 64) = setLane 64 id a x
    exact setLane_mod_self 64 id a x
  case altivec =>
    show setLane 64 id a (x % 2 ^ 64) = setLane 64 id a x
    exact setLane_mod_self 64 id a x
  case sse2 => exact insert_u64_sse2_eq sse32 id a x hid ha
  case sse4_1 =>
    cases sse32
    case true => exact insert_u64_sse41_32_eq id a x
    case false =>
      show setLane 64 id a (x % 2 ^ 64) = setLane 64 id a x
      exact setLane_mod_self 64 id a x

theorem insert_f32_eq (arch : Arch) (fltsp : Bool) (id a x : Nat) :
    insert_f32 arch fltsp id a x = setLane 32 id a x := by
  cases fltsp
  case true => rfl
  case false =>
    show insert_u32 arch id a x = setLane 32 id a x
    exact insert_u32_eq arch id a x

theorem insert_f64_eq (arch : Arch) (sse32 : Bool) (id a x : Nat)
    (hid : id < 2) (ha : a < 2 ^ 128) :
    insert_f64 arch sse32 id a x = setLane 64 id a x :=
  insert_u64_eq arch sse32 id a x hid ha

/-- Modelled from the spec: detail::insn::i_combine (outside the provided
source) concatenates two N-lane vectors of w-bit lanes into one 2N-lane
vector, the first operand occupying the low N lanes and the second the
high N lanes; on the packed-register representation the composite of the
two w*N-bit registers is their bit concatenation. -/
def i_combine (w N r1 r2 : Nat) : Nat :=
  r1 % 2 ^ (w * N) + r2 % 2 ^ (w * N) * 2 ^ (w * N)

/-- combine on uint8 vectors (insert.h lines 261-265). -/
def combine_u8 (N a1 a2 : Nat) : Nat := i_combine 8 N a1 a2

/-- combine on uint16 vectors (insert.h lines 267-271). -/
def combine_u16 (N a1 a2 : Nat) : Nat := i_combine 16 N a1 a2

/-- combine on uint32 vectors (insert.h lines 273-277). -/
def combine_u32 (N a1 a2 : Nat) : Nat := i_combine 32 N a1 a2

/-- combine on uint64 vectors (insert.h lines 279-283). -/
def combine_u64 (N a1 a2 : Nat) : Nat := i_combine 64 N a1 a2

/-- combine on int8 vectors (insert.h lines 285-290): both operands are
reinterpreted as unsigned through the bridge and handed to i_combine. -/
def combine_i8 (N a1 a2 : Nat) : Nat :=
  i_combine 8 N (bit_cast a1) (bit_cast a2)

/-- combine on int16 vectors (insert.h lines 292-297). -/
def combine_i16 (N a1 a2 : Nat) : Nat :=
  i_combine 16 N (bit_cast a1) (bit_cast a2)

/-- combine on int32 vectors (insert.h lines 299-304). -/
def combine_i32 (N a1 a2 : Nat) : Nat :=
  i_combine 32 N (bit_cast a1) (bit_cast a2)

/-- combine on int64 vectors (insert.h lines 306-311). -/
def combine_i64 (N a1 a2 : Nat) : Nat :=
  i_combine 64 N (bit_cast a1) (bit_cast a2)

/-- combine on float32 vectors (insert.h lines 313-317); floats are
carried as their bit patterns. -/
def combine_f32 (N a1 a2 : Nat) : Nat := i_combine 32 N a1 a2

/-- combine on float64 vectors (insert.h lines 319-323). -/
def combine_f64 (N a1 a2 : Nat) : Nat := i_combine 64 N a1 a2

theorem getLane_mod_pow (w j L r : Nat) (h : j < L) :
    getLane w j (r % 2 ^ (w * L)) = getLane w j r := by
  have e : (2 : Nat) ^ (w * L) = 2 ^ (w * j) * 2 ^ (w * (L - j)) := by
    rw [← pow_add]
    congr 1
    have h1 : j + (L - j) = L := by omega
    calc w * L = w * (j + (L - j)) := by rw [h1]
      _ = w * j + w * (L - j) := by ring
  unfold getLane getL
  rw [e, Nat.mod_mul_right_div_self,
    Nat.mod_mod_of_dvd _ (pow_dvd_pow 2 (by
      have h2 : 1 ≤ L - j := by omega
      calc w = w * 1 := by ring
        _ ≤ w * (L - j) := Nat.mul_le_mul_left w h2))]

theorem i_combine_lane_lo (w N r1 r2 k : Nat) (h : k < N) :
    getLane w k (i_combine w N r1 r2) = getLane w k r1 := by
  unfold i_combine
  have hd : (2 : Nat) ^ (w * k) * 2 ^ w ∣ 2 ^ (w * N) := by
    rw [← pow_add, show w * k + w = w * (k + 1) from by ring]
    exact pow_dvd_pow 2 (Nat.mul_le_mul_left w h)
  rw [getLane_eq_mod_div, getLane_eq_mod_div]
  congr 1
  calc (r1 % 2 ^ (w * N) + r2 % 2 ^ (w * N) * 2 ^ (w * N))
          % (2 ^ (w * k) * 2 ^ w)
      = (r1 % 2 ^ (w * N) + r2 % 2 ^ (w * N) * 2 ^ (w * N)) % 2 ^ (w * N)
          % (2 ^ (w * k) * 2 ^ w) := (Nat.mod_mod_of_dvd _ hd).symm
    _ = r1 % 2 ^ (w * N) % 2 ^ (w * N) % (2 ^ (w * k) * 2 ^ w) := by
        rw [Nat.add_mul_mod_self_right]
    _ = r1 % 2 ^ (w * N) % (2 ^ (w * k) * 2 ^ w) := by
        rw [Nat.mod_mod_of_dvd _ dvd_rfl]
    _ = r1 % (2 ^ (w * k) * 2 ^ w) := Nat.mod_mod_of_dvd _ hd

theorem i_combine_lane_hi (w N r1 r2 k : Nat) (hN : N ≤ k) (hk : k < 2 * N) :
    getLane w k (i_combine w N r1 r2) = getLane w (k - N) r2 := by
  unfold i_combine
  have e : (2 : Nat) ^ (w * k) = 2 ^ (w * N) * 2 ^ (w * (k - N)) := by
    rw [← pow_add]
    congr 1
    have h1 : N + (k - N) = k := by omega
    calc w * k = w * (N + (k - N)) := by rw [h1]
      _ = w * N + w * (k - N) := by ring
  have hdivN : (r1 % 2 ^ (w * N) + r2 % 2 ^ (w * N) * 2 ^ (w * N))
      / 2 ^ (w * N) = r2 % 2 ^ (w * N) := by
    rw [Nat.add_mul_div_right _ _ (Nat.two_pow_pos _),
      Nat.div_eq_of_lt (Nat.mod_lt r1 (Nat.two_pow_pos _))]
    omega
  unfold getLane getL
  rw [e, ← Nat.div_div_eq_div_mul, hdivN]
  have h2 : k - N < N := by omega
  have := getLane_mod_pow w (k - N) N r2 h2
  unfold getLane getL at this
  exact this

theorem i_combine_lt (w N r1 r2 : Nat) :
    i_combine w N r1 r2 < 2 ^ (w * (2 * N)) := by
  unfold i_combine
  have h1 : r1 % 2 ^ (w * N) < 2 ^ (w * N) :=
    Nat.mod_lt r1 (Nat.two_pow_pos _)
  have h2 : r2 % 2 ^ (w * N) < 2 ^ (w * N) :=
    Nat.mod_lt r2 (Nat.two_pow_pos _)
  have e : (2 : Nat) ^ (w * (2 * N)) = 2 ^ (w * N) * 2 ^ (w * N) := by
    rw [← pow_add, show w * N + w * N = w * (2 * N) from by ring]
  have h4 : (r2 % 2 ^ (w * N) + 1) * 2 ^ (w * N)
      ≤ 2 ^ (w * N) * 2 ^ (w * N) :=
    Nat.mul_le_mul_right _ (Nat.succ_le_of_lt h2)
  rw [Nat.succ_mul] at h4
  omega

/-- The compile-time index guard of the uint8x16 insert, as present in
the source: static_assert(id < 16, "Position out of range") at insert.h
line 48.  Instantiation succeeds exactly when the guard holds. -/
def insertGuard8 (id : Nat) : Bool := decide (id < 16)

/-- The compile-time index guard of the uint16x8 insert: the source has
no static_assert in that function, so every index is accepted at
instantiation time. -/
def insertGuard16 (_id : Nat) : Bool := true

/-- The compile-time index guard of the uint32x4 insert: none present in
the source. -/
def insertGuard32 (_id : Nat) : Bool := true

/-- The compile-time index guard of the uint64x2 insert: none present in
the source. -/
def insertGuard64 (_id : Nat) : Bool := true

/-- The compile-time index guard of the float32x4 insert: none present
in the source. -/
def insertGuardF32 (_id : Nat) : Bool := true

/-- The compile-time index guard of the float64x2 insert: none present
in the source. -/
def insertGuardF64 (_id : Nat) : Bool := true

/-- Claim C1: for every vector a of width W, every scalar x, and every
index id with id < W, insert puts x bit-for-bit into lane id and leaves
every other lane bit-for-bit unchanged, on every backend variant (scalar
fallback, direct native instruction, coarser-granularity merge,
half-width decomposition, shuffle-based synthesis, memory round-trip),
at every integer element width. -/
theorem insert_lane_semantics (arch : Arch) (sse32 : Bool) (a x id : Nat)
    (ha : a < 2 ^ 128) :
    (id < 16 → x < 2 ^ 8 →
      getLane 8 id (insert_u8 arch id a x) = x ∧
      ∀ j, j < 16 → j ≠ id →
        getLane 8 j (insert_u8 arch id a x) = getLane 8 j a) ∧
    (id < 8 → x < 2 ^ 16 →
      getLane 16 id (insert_u16 arch id a x) = x ∧
      ∀ j, j < 8 → j ≠ id →
        getLane 16 j (insert_u16 arch id a x) = getLane 16 j a) ∧
    (id < 4 → x < 2 ^ 32 →
      getLane 32 id (insert_u32 arch id a x) = x ∧
      ∀ j, j < 4 → j ≠ id →
        getLane 32 j (insert_u32 arch id a x) = getLane 32 j a) ∧
    (id < 2 → x < 2 ^ 64 →
      getLane 64 id (insert_u64 arch sse32 id a x) = x ∧
      ∀ j, j < 2 → j ≠ id →
        getLane 64 j (insert_u64 arch sse32 id a x) = getLane 64 j a) := by
  refine ⟨fun hid hx => ?_, fun hid hx => ?_, fun hid hx => ?_,
    fun hid hx => ?_⟩
  · rw [insert_u8_eq]
    exact ⟨by rw [getLane_setLane_same, Nat.mod_eq_of_lt hx],
      fun j _ hne => getLane_setLane_ne 8 id j a x hne⟩
  · rw [insert_u16_eq]
    exact ⟨by rw [getLane_setLane_same, Nat.mod_eq_of_lt hx],
      fun j _ hne => getLane_setLane_ne 16 id j a x hne⟩
  · rw [insert_u32_eq]
    exact ⟨by rw [getLane_setLane_same, Nat.mod_eq_of_lt hx],
      fun j _ hne => getLane_setLane_ne 32 id j a x hne⟩
  · rw [insert_u64_eq arch sse32 id a x hid ha]
    exact ⟨by rw [getLane_setLane_same, Nat.mod_eq_of_lt hx],
      fun j _ hne => getLane_setLane_ne 64 id j a x hne⟩

/-- Witness for C1: the spec scenario of a 16-lane all-zero byte vector
with 0xFF inserted at lane 5 on the SSE2 coarser-merge path, plus a
64-bit insertion on the SSE2 32-bit shuffle path. -/
theorem insert_lane_semantics_witness :
    getLane 8 5 (insert_u8 Arch.sse2 5 0 0xff) = 0xff ∧
    getLane 8 7 (insert_u8 Arch.sse2 5 0 0xff) = getLane 8 7 0 ∧
    getLane 64 1 (insert_u64 Arch.sse2 true 1 3 0xDEADBEEF) = 0xDEADBEEF := by
  have h1 := insert_lane_semantics Arch.sse2 true 0 0xff 5 (by decide)
  have h2 := insert_lane_semantics Arch.sse2 true 3 0xDEADBEEF 1 (by decide)
  exact ⟨(h1.1 (by decide) (by decide)).1,
    (h1.1 (by decide) (by decide)).2 7 (by decide) (by decide),
    (h2.2.2.2 (by decide) (by decide)).1⟩

/-- Claim C2: combine of two N-lane vectors of equal element type yields
a 2N-lane vector whose lane k is the first operand's lane k for k < N and
the second operand's lane k-N for N <= k < 2N (shown at the 8-bit and
32-bit element widths named by the claim, together with the width bound
of the result). -/
theorem combine_lane_semantics (N a1 a2 k : Nat) :
    (k < N →
      getLane 8 k (combine_u8 N a1 a2) = getLane 8 k a1 ∧
      getLane 32 k (combine_u32 N a1 a2) = getLane 32 k a1) ∧
    (N ≤ k → k < 2 * N →
      getLane 8 k (combine_u8 N a1 a2) = getLane 8 (k - N) a2 ∧
      getLane 32 k (combine_u32 N a1 a2) = getLane 32 (k - N) a2) ∧
    combine_u8 N a1 a2 < 2 ^ (8 * (2 * N)) ∧
    combine_u32 N a1 a2 < 2 ^ (32 * (2 * N)) := by
  refine ⟨fun h => ?_, fun h1 h2 => ?_, ?_, ?_⟩
  · exact ⟨i_combine_lane_lo 8 N a1 a2 k h, i_combine_lane_lo 32 N a1 a2 k h⟩
  · exact ⟨i_combine_lane_hi 8 N a1 a2 k h1 h2,
      i_combine_lane_hi 32 N a1 a2 k h1 h2⟩
  · exact i_combine_lt 8 N a1 a2
  · exact i_combine_lt 32 N a1 a2

/-- Witness for C2: the spec scenario combining the 32-bit vectors
[1,2,3,4] and [5,6,7,8]; lane 1 of the result is 2 and lane 5 is 6. -/
theorem combine_lane_semantics_witness :
    getLane 32 1 (combine_u32 4 (1 + 2 * 2 ^ 32 + 3 * 2 ^ 64 + 4 * 2 ^ 96)
        (5 + 6 * 2 ^ 32 + 7 * 2 ^ 64 + 8 * 2 ^ 96)) = 2 ∧
    getLane 32 5 (combine_u32 4 (1 + 2 * 2 ^ 32 + 3 * 2 ^ 64 + 4 * 2 ^ 96)
        (5 + 6 * 2 ^ 32 + 7 * 2 ^ 64 + 8 * 2 ^ 96)) = 6 := by
  have h1 := combine_lane_semantics 4 (1 + 2 * 2 ^ 32 + 3 * 2 ^ 64 + 4 * 2 ^ 96)
    (5 + 6 * 2 ^ 32 + 7 * 2 ^ 64 + 8 * 2 ^ 96) 1
  have h5 := combine_lane_semantics 4 (1 + 2 * 2 ^ 32 + 3 * 2 ^ 64 + 4 * 2 ^ 96)
    (5 + 6 * 2 ^ 32 + 7 * 2 ^ 64 + 8 * 2 ^ 96) 5
  exact ⟨Eq.trans (h1.1 (by decide)).2 (by decide),
    Eq.trans (h5.2.1 (by decide) (by decide)).2 (by decide)⟩

/-- Claim C3: the spec requires every insert instantiation at every
element width to reject an out-of-range lane index with a static failure;
in the source only the uint8x16 insert carries a static_assert (line 48),
while the 16-, 32-, 64-bit and both float inserts have no static guard
at all, so an out-of-range instantiation there is not rejected at
compile time (and the scalar-fallback write then lands outside the
128-bit register at runtime, as the last conjunct evaluates). -/
theorem insert_index_guard_only_u8 :
    insertGuard8 16 = false ∧ insertGuard16 8 = true ∧
    insertGuard32 4 = true ∧ insertGuard64 2 = true ∧
    insertGuardF32 4 = true ∧ insertGuardF64 2 = true ∧
    insert_u16 Arch.null 8 0 1 = 2 ^ 128 := by decide

/-- Claim C4: floating-point insert equals integer insert on the
bit-reinterpreted representation (definitionally for float64, and for
float32 whenever the native NEON_FLT_SP lane-set is absent), and in every
case the result lane holds the bit pattern of x exactly, so NaN payloads
are preserved bit-for-bit. -/
theorem float_insert_bit_reinterpretation (arch : Arch) (fltsp sse32 : Bool)
    (id a x y : Nat) :
    (fltsp = false → insert_f32 arch fltsp id a x = insert_u32 arch id a x) ∧
    insert_f64 arch sse32 id a y = insert_u64 arch sse32 id a y ∧
    (id < 4 → x < 2 ^ 32 →
      getLane 32 id (insert_f32 arch fltsp id a x) = x) ∧
    (id < 2 → y < 2 ^ 64 → a < 2 ^ 128 →
      getLane 64 id (insert_f64 arch sse32 id a y) = y) := by
  refine ⟨fun h => ?_, rfl, fun hid hx => ?_, fun hid hy ha => ?_⟩
  · subst h; rfl
  · rw [insert_f32_eq, getLane_setLane_same, Nat.mod_eq_of_lt hx]
  · rw [insert_f64_eq arch sse32 id a y hid ha, getLane_setLane_same,
      Nat.mod_eq_of_lt hy]

/-- Witness for C4: quiet-NaN bit patterns with nonzero payloads survive
insertion bit-for-bit at both float widths. -/
theorem float_insert_bit_reinterpretation_witness :
    getLane 32 2 (insert_f32 Arch.sse2 false 2 0 0x7FC00001) = 0x7FC00001 ∧
    getLane 64 0 (insert_f64 Arch.sse2 false 0 0 0x7FF8000000000001)
      = 0x7FF8000000000001 := by
  have h := float_insert_bit_reinterpretation Arch.sse2 false false 2 0
    0x7FC00001 0
  have h2 := float_insert_bit_reinterpretation Arch.sse2 false false 0 0
    0 0x7FF8000000000001
  exact ⟨h.2.2.1 (by decide) (by decide),
    h2.2.2.2 (by decide) (by decide) (by decide)⟩

/-- Claim C5: signed integer combine produces exactly the same bit
pattern as unsigned combine of the unsigned-reinterpreted operands; in
the source the signed overloads forward to the unsigned i_combine
through the bit-reinterpreting constructors, so the registers agree
bit-for-bit at every signed element width. -/
theorem signed_combine_eq_unsigned (N a1 a2 : Nat) :
    combine_i8 N a1 a2 = combine_u8 N (bit_cast a1) (bit_cast a2) ∧
    combine_i16 N a1 a2 = combine_u16 N (bit_cast a1) (bit_cast a2) ∧
    combine_i32 N a1 a2 = combine_u32 N (bit_cast a1) (bit_cast a2) ∧
    combine_i64 N a1 a2 = combine_u64 N (bit_cast a1) (bit_cast a2) :=
  ⟨rfl, rfl, rfl, rfl⟩

/-- Claim C6: insert is idempotent: inserting the same scalar twice at
the same valid lane gives the same register as inserting it once, on
every backend variant and at every element width including floats. -/
theorem insert_idempotent (arch : Arch) (fltsp sse32 : Bool) (id a x : Nat)
    (ha : a < 2 ^ 128) :
    (id < 16 →
      insert_u8 arch id (insert_u8 arch id a x) x = insert_u8 arch id a x) ∧
    (id < 8 →
      insert_u16 arch id (insert_u16 arch id a x) x
        = insert_u16 arch id a x) ∧
    (id < 4 →
      insert_u32 arch id (insert_u32 arch id a x) x
        = insert_u32 arch id a x) ∧
    (id < 2 →
      insert_u64 arch sse32 id (insert_u64 arch sse32 id a x) x
        = insert_u64 arch sse32 id a x) ∧
    (id < 4 →
      insert_f32 arch fltsp id (insert_f32 arch fltsp id a x) x
        = insert_f32 arch fltsp id a x) ∧
    (id < 2 →
      insert_f64 arch sse32 id (insert_f64 arch sse32 id a x) x
        = insert_f64 arch sse32 id a x) := by
  have hb64 : ∀ _ : id < 2, setLane 64 id a x < 2 ^ 128 := fun hid =>
    setLane_lt_pow 64 id 2 a x ha hid
  refine ⟨fun _ => ?_, fun _ => ?_, fun _ => ?_, fun hid => ?_,
    fun _ => ?_, fun hid => ?_⟩
  · simp only [insert_u8_eq]; exact setLane_setLane_same 8 id a x x
  · simp only [insert_u16_eq]; exact setLane_setLane_same 16 id a x x
  · simp only [insert_u32_eq]; exact setLane_setLane_same 32 id a x x
  · rw [insert_u64_eq arch sse32 id a x hid ha,
      insert_u64_eq arch sse32 id (setLane 64 id a x) x hid (hb64 hid),
      setLane_setLane_same]
  · simp only [insert_f32_eq]; exact setLane_setLane_same 32 id a x x
  · rw [insert_f64_eq arch sse32 id a x hid ha,
      insert_f64_eq arch sse32 id (setLane 64 id a x) x hid (hb64 hid),
      setLane_setLane_same]

/-- Witness for C6: double insertion on the SSE2 coarser-merge path and
on the SSE2 64-bit shuffle path collapses to a single insertion. -/
theorem insert_idempotent_witness :
    insert_u8 Arch.sse2 3 (insert_u8 Arch.sse2 3 7 9) 9
      = insert_u8 Arch.sse2 3 7 9 ∧
    insert_u64 Arch.sse2 false 1 (insert_u64 Arch.sse2 false 1 7 9) 9
      = insert_u64 Arch.sse2 false 1 7 9 := by
  have h8 := insert_idempotent Arch.sse2 false false 3 7 9 (by decide)
  have h64 := insert_idempotent Arch.sse2 false false 1 7 9 (by decide)
  exact ⟨h8.1 (by decide), h64.2.2.2.1 (by decide)⟩

/-- Claim C7: the half-width decomposition paths are equivalent to
direct lane replacement: the SSE2 32-bit insert via two 16-bit inserts
at lanes 2·id and 2·id+1, and the 32-bit-mode SSE4.1 64-bit insert via
two 32-bit inserts, each produce exactly the register with lane id
replaced and all other lanes unchanged. -/
theorem halfwidth_decomposition_eq_direct (id a x y : Nat) :
    (id < 4 → insert_u32 Arch.sse2 id a x = setLane 32 id a x) ∧
    (id < 2 → insert_u64 Arch.sse4_1 true id a y = setLane 64 id a y) :=
  ⟨fun _ => insert_u32_sse2_eq id a x, fun _ => insert_u64_sse41_32_eq id a y⟩

/-- Witness for C7: both half-width decompositions at lane 1 of a
concrete register. -/
theorem halfwidth_decomposition_eq_direct_witness :
    insert_u32 Arch.sse2 1 0x12345 0xCAFE = setLane 32 1 0x12345 0xCAFE ∧
    insert_u64 Arch.sse4_1 true 1 0x12345 0xCAFE
      = setLane 64 1 0x12345 0xCAFE := by
  have h := halfwidth_decomposition_eq_direct 1 0x12345 0xCAFE 0xCAFE
  exact ⟨h.1 (by decide), h.2 (by decide)⟩

/-- Claim C8: the SSE2 coarser-granularity merge for 8-bit insert --
extract the enclosing 16-bit lane id/2, merge x into its high byte when
id is odd and its low byte when id is even, write the merged lane back --
equals direct byte-lane replacement under little-endian packing. -/
theorem coarser_merge_eq_direct (id a x : Nat) (_hid : id < 16) :
    insert_u8 Arch.sse2 id a x = setLane 8 id a x :=
  insert_u8_sse2_eq id a x

/-- Witness for C8: an odd and an even byte lane of a concrete register
through the 16-bit-granularity merge. -/
theorem coarser_merge_eq_direct_witness :
    insert_u8 Arch.sse2 9 0xA1B2C3D4E5F6 0x42
      = setLane 8 9 0xA1B2C3D4E5F6 0x42 ∧
    insert_u8 Arch.sse2 4 0xA1B2C3D4E5F6 0x42
      = setLane 8 4 0xA1B2C3D4E5F6 0x42 :=
  ⟨coarser_merge_eq_direct 9 0xA1B2C3D4E5F6 0x42 (by decide),
    coarser_merge_eq_direct 4 0xA1B2C3D4E5F6 0x42 (by decide)⟩

/-- Claim C9: the SSE2 shuffle-based synthesis for 64-bit insert --
materialize a register vx holding x in lane 0, then select lanes
(vx0, a1) when id = 0 and (a0, vx0) when id = 1 -- equals direct lane
replacement, in both the 64-bit build (cvtsi64) and the 32-bit build
(two cvtsi32 and a zip). -/
theorem shuffle_synthesis_eq_direct (sse32 : Bool) (id a x : Nat)
    (hid : id < 2) (ha : a < 2 ^ 128) :
    insert_u64 Arch.sse2 sse32 id a x = setLane 64 id a x :=
  insert_u64_sse2_eq sse32 id a x hid ha

/-- Witness for C9: both lanes and both bitness variants on a concrete
register. -/
theorem shuffle_synthesis_eq_direct_witness :
    insert_u64 Arch.sse2 false 0 0x77777777777777777777 0x8888
      = setLane 64 0 0x77777777777777777777 0x8888 ∧
    insert_u64 Arch.sse2 true 1 0x77777777777777777777 0x8888
      = setLane 64 1 0x77777777777777777777 0x8888 :=
  ⟨shuffle_synthesis_eq_direct false 0 0x77777777777777777777 0x8888
      (by decide) (by decide),
    shuffle_synthesis_eq_direct true 1 0x77777777777777777777 0x8888
      (by decide) (by decide)⟩

/-- Claim C10: last write wins: inserting x1 and then x2 at the same
valid lane leaves no trace of x1 -- the result equals inserting x2
alone, on every backend variant and integer element width. -/
theorem insert_last_write_wins (arch : Arch) (sse32 : Bool)
    (id a x1 x2 : Nat) (ha : a < 2 ^ 128) :
    (id < 16 →
      insert_u8 arch id (insert_u8 arch id a x1) x2
        = insert_u8 arch id a x2) ∧
    (id < 8 →
      insert_u16 arch id (insert_u16 arch id a x1) x2
        = insert_u16 arch id a x2) ∧
    (id < 4 →
      insert_u32 arch id (insert_u32 arch id a x1) x2
        = insert_u32 arch id a x2) ∧
    (id < 2 →
      insert_u64 arch sse32 id (insert_u64 arch sse32 id a x1) x2
        = insert_u64 arch sse32 id a x2) := by
  refine ⟨fun _ => ?_, fun _ => ?_, fun _ => ?_, fun hid => ?_⟩
  · simp only [insert_u8_eq]; exact setLane_setLane_same 8 id a x1 x2
  · simp only [insert_u16_eq]; exact setLane_setLane_same 16 id a x1 x2
  · simp only [insert_u32_eq]; exact setLane_setLane_same 32 id a x1 x2
  · rw [insert_u64_eq arch sse32 id a x1 hid ha,
      insert_u64_eq arch sse32 id (setLane 64 id a x1) x2 hid
        (setLane_lt_pow 64 id 2 a x1 ha hid),
      insert_u64_eq arch sse32 id a x2 hid ha,
      setLane_setLane_same]

/-- Witness for C10: overwriting lane 2 with 0x11 and then 0x22 on the
SSE2 paths equals writing 0x22 once. -/
theorem insert_last_write_wins_witness :
    insert_u8 Arch.sse2 2 (insert_u8 Arch.sse2 2 5 0x11) 0x22
      = insert_u8 Arch.sse2 2 5 0x22 ∧
    insert_u64 Arch.sse2 true 0 (insert_u64 Arch.sse2 true 0 5 0x11) 0x22
      = insert_u64 Arch.sse2 true 0 5 0x22 := by
  have h8 := insert_last_write_wins Arch.sse2 true 2 5 0x11 0x22 (by decide)
  have h64 := insert_last_write_wins Arch.sse2 true 0 5 0x11 0x22 (by decide)
  exact ⟨h8.1 (by decide), h64.2.2.2 (by decide)⟩
